import Mathlib

/-!
Shallow embedding of `src/jdk/src/solaris/native/java/net/Inet4AddressImpl.c`
(OpenJDK Solaris/Unix native IPv4 resolver and reachability prober).

The C file interacts with the operating system (resolver library, sockets,
`NET_Wait`, `sendto`/`recvfrom`).  Those external services are modelled as
explicit oracle parameters (records of values / event streams) passed to the
embedded functions; the functions themselves mirror the C control flow.
Machine integers: `jint` values that never overflow in the modelled paths are
`Int`; addresses, errno values, ICMP fields are `Nat`.  A JNI exception throw
followed by `return JNI_FALSE` is modelled as the outcome `ProbeOutcome.ProbeError`;
`JNI_TRUE` is `Reachable`; a plain `JNI_FALSE` return without a pending
exception is `Unreachable`.  Allocation-failure (`OutOfMemoryError`) paths
are not modelled (the allocator is treated as succeeding).

Platform: the embedding fixes the `__linux__` build of the prober (the
`EINVAL` loopback quirks at lines 657-664 and 815-822 compiled in) and uses
Linux errno numbers.
-/

namespace Inet4Impl

/-- Linux errno: operation now in progress. -/
def EINPROGRESS : Nat := 115
/-- Linux errno: connection refused. -/
def ECONNREFUSED : Nat := 111
/-- Linux errno: network is unreachable. -/
def ENETUNREACH : Nat := 101
/-- Linux errno: address family not supported. -/
def EAFNOSUPPORT : Nat := 97
/-- Linux errno: cannot assign requested address. -/
def EADDRNOTAVAIL : Nat := 99
/-- Linux errno: invalid argument. -/
def EINVAL : Nat := 22
/-- ICMP message type: echo reply (`ICMP_ECHOREPLY` in `<netinet/ip_icmp.h>`). -/
def ICMP_ECHOREPLY : Nat := 0

/-- Terminal outcome of one `isReachable0` call, as seen through JNI:
`Reachable` = `JNI_TRUE`, `Unreachable` = `JNI_FALSE` with no exception
pending, `ProbeError` = a thrown exception (the C code also returns
`JNI_FALSE` then, but the caller sees the exception). -/
inductive ProbeOutcome where
  | Reachable
  | Unreachable
  | ProbeError
deriving DecidableEq, Repr

/-- One datagram delivered by `recvfrom` in `ping4` (lines 675-686), with the
fields the acceptance test reads: `n` is the byte count returned by
`recvfrom` (`-1` on failure), `ipHl` the IP header-length field `ip_hl`
(in 32-bit words), `icmpType` the `icmp_type` byte, `icmpId` the echo
identifier in host byte order (`ntohs(icmp_id)`), and `srcAddr` the 32-bit
source address `sa_recv.sin_addr.s_addr`. -/
structure Packet where
  n : Int
  ipHl : Nat
  icmpType : Nat
  icmpId : Nat
  srcAddr : Nat
deriving DecidableEq, Repr

/-- The acceptance test of `ping4` (lines 677-686): the IP header is
stripped (`hlen1 = ip_hl << 2`, `icmplen = n - hlen1`) and the packet is a
matching reply iff at least 8 ICMP bytes arrived, the type is
`ICMP_ECHOREPLY`, the echo identifier equals this call's `pid` and the
source address equals the probed address. -/
def acceptReply (pid addr : Nat) (p : Packet) : Bool :=
  let hlen1 : Int := (p.ipHl : Int) * 4
  let icmplen : Int := p.n - hlen1
  decide (8 ≤ icmplen) && decide (p.icmpType = ICMP_ECHOREPLY)
    && decide (p.icmpId = pid) && decide (p.srcAddr = addr)

/-- The inner receive loop of `ping4` (lines 670-691).  `events` is the
stream of datagrams the OS delivers in this one-second slice, each paired
with the wait time (ms) `NET_Wait` spends before it becomes readable;
`tmout2` is the slice's wait budget.  `NET_Wait` is modelled as returning
the remaining budget `tmout2 - elapsed` when the event fires strictly
within the budget and a negative value (timeout) otherwise; an exhausted
stream is a timeout.  Returns `true` iff a matching reply is accepted
within the budget. -/
def recvLoop (pid addr : Nat) (events : List (Nat × Packet)) (tmout2 : Int) : Bool :=
  match events with
  | [] => false
  | (el, p) :: rest =>
      if tmout2 ≤ (el : Int) then false
      else if acceptReply pid addr p then true
      else recvLoop pid addr rest (tmout2 - (el : Int))

/-- The wait budget of one outer iteration of `ping4`
(line 670: `tmout2 = timeout > 1000 ? 1000 : timeout`). -/
def waitBudget (timeout : Int) : Int :=
  if timeout > 1000 then 1000 else timeout

/-- Oracle for the OS interactions of one `ping4` call, indexed by the echo
sequence number of the outer iteration: `sendErr seq` is the errno of a
failed `sendto` for the request with that sequence number (`none` = the
send succeeded), and `events seq` the datagrams delivered during that
iteration's wait slice. -/
structure PingEnv where
  sendErr : Nat → Option Nat
  events : Nat → List (Nat × Packet)

/-- The outer retransmission loop of `ping4` (lines 636-695), `__linux__`
build.  Each iteration builds and sends one echo request; a `sendto`
failure whose errno is neither `EINPROGRESS` nor `EINVAL` throws
(`ProbeError`), the Linux loopback `EINVAL` quirk returns `JNI_FALSE`
without throwing (`Unreachable`).  Otherwise the receive loop runs with
budget `waitBudget timeout`; on a matching reply the call returns
`JNI_TRUE` (`Reachable`); otherwise `timeout -= 1000` and the loop repeats
while `timeout > 0`, returning `JNI_FALSE` (`Unreachable`) when the budget
is exhausted. -/
def ping4Loop (pe : PingEnv) (pid addr : Nat) (timeout : Int) (seq : Nat) : ProbeOutcome :=
  match pe.sendErr seq with
  | some e =>
      if e = EINPROGRESS then
        if recvLoop pid addr (pe.events seq) (waitBudget timeout) then ProbeOutcome.Reachable
        else if timeout - 1000 > 0 then ping4Loop pe pid addr (timeout - 1000) (seq + 1)
        else ProbeOutcome.Unreachable
      else if e = EINVAL then ProbeOutcome.Unreachable
      else ProbeOutcome.ProbeError
  | none =>
      if recvLoop pid addr (pe.events seq) (waitBudget timeout) then ProbeOutcome.Reachable
      else if timeout - 1000 > 0 then ping4Loop pe pid addr (timeout - 1000) (seq + 1)
      else ProbeOutcome.Unreachable
termination_by timeout.toNat
decreasing_by
  all_goals
    simp only [gt_iff_lt] at *
    omega

/-- Number of outer iterations (= echo requests sent) that `ping4Loop`
performs; same recursion structure as `ping4Loop`. -/
def ping4Iters (pe : PingEnv) (pid addr : Nat) (timeout : Int) (seq : Nat) : Nat :=
  match pe.sendErr seq with
  | some e =>
      if e = EINPROGRESS then
        if recvLoop pid addr (pe.events seq) (waitBudget timeout) then 1
        else if timeout - 1000 > 0 then 1 + ping4Iters pe pid addr (timeout - 1000) (seq + 1)
        else 1
      else 1
  | none =>
      if recvLoop pid addr (pe.events seq) (waitBudget timeout) then 1
      else if timeout - 1000 > 0 then 1 + ping4Iters pe pid addr (timeout - 1000) (seq + 1)
      else 1
termination_by timeout.toNat
decreasing_by
  all_goals
    simp only [gt_iff_lt] at *
    omega

/-- `ping4` (lines 595-696): socket options (`SO_RCVBUF`, `IP_TTL`) have no
observable effect in the model; if a source interface was given and `bind`
fails, the call throws and returns `JNI_FALSE` (`ProbeError`, lines
625-631); otherwise the socket is made non-blocking and the
retransmission loop runs starting at sequence number 1. -/
def ping4 (pe : PingEnv) (bindFails : Bool) (hasNetif : Bool) (pid addr : Nat)
    (timeout : Int) : ProbeOutcome :=
  if hasNetif && bindFails then ProbeOutcome.ProbeError
  else ping4Loop pe pid addr timeout 1

/-- Oracle for the OS interactions of the TCP fallback branch of
`isReachable0` (lines 768-849): `bindFails` is whether `bind` to the given
source interface fails; `connectOk` whether `JVM_Connect` returns 0;
`err` the errno after a failed connect; `waitTimedOut` whether
`NET_Wait(..., NET_WAIT_CONNECT, timeout)` returns negative (timed out);
`soErr` the pending socket error: the `SO_ERROR` value, or, when
`JVM_GetSockOpt` itself fails, the errno substituted at line 840. -/
structure TcpEnv where
  bindFails : Bool
  connectOk : Bool
  err : Nat
  waitTimedOut : Bool
  soErr : Nat
deriving DecidableEq, Repr

/-- The TCP fallback decision of `isReachable0` (lines 777-849), `__linux__`
build: bind failure throws; immediate connect success or `ECONNREFUSED`
returns `JNI_TRUE`; `ENETUNREACH`, `EAFNOSUPPORT`, `EADDRNOTAVAIL` and the
Linux loopback `EINVAL` quirk return `JNI_FALSE` without throwing; any
other errno that is not `EINPROGRESS` throws `ConnectException`; on
`EINPROGRESS` the call waits for connectability: a timed-out wait returns
`JNI_FALSE`, otherwise pending error 0 or `ECONNREFUSED` returns
`JNI_TRUE` and anything else `JNI_FALSE`. -/
def tcpProbe (te : TcpEnv) (hasNetif : Bool) : ProbeOutcome :=
  if hasNetif && te.bindFails then ProbeOutcome.ProbeError
  else if te.connectOk || decide (te.err = ECONNREFUSED) then ProbeOutcome.Reachable
  else if te.err = ENETUNREACH ∨ te.err = EAFNOSUPPORT ∨ te.err = EADDRNOTAVAIL ∨ te.err = EINVAL then
    ProbeOutcome.Unreachable
  else if te.err ≠ EINPROGRESS then ProbeOutcome.ProbeError
  else if te.waitTimedOut then ProbeOutcome.Unreachable
  else if te.soErr = 0 ∨ te.soErr = ECONNREFUSED then ProbeOutcome.Reachable
  else ProbeOutcome.Unreachable

/-- The TCP fallback outcome as the specification's sentences describe it
(spec §4.2 step 4); written from the spec's words, to be compared with
`tcpProbe`, which is translated from the source. -/
def tcpOutcomeSpec (te : TcpEnv) : ProbeOutcome :=
  if te.connectOk then ProbeOutcome.Reachable
  else if te.err = ECONNREFUSED then ProbeOutcome.Reachable
  else if te.err = ENETUNREACH then ProbeOutcome.Unreachable
  else if te.err = EAFNOSUPPORT then ProbeOutcome.Unreachable
  else if te.err = EADDRNOTAVAIL then ProbeOutcome.Unreachable
  else if te.err = EINVAL then ProbeOutcome.Unreachable
  else if te.err ≠ EINPROGRESS then ProbeOutcome.ProbeError
  else if te.waitTimedOut then ProbeOutcome.Unreachable
  else if te.soErr = 0 then ProbeOutcome.Reachable
  else if te.soErr = ECONNREFUSED then ProbeOutcome.Reachable
  else ProbeOutcome.Unreachable

/-- Oracle and inputs of one `isReachable0` call (lines 703-849):
`addrLen` is `GetArrayLength(addrArray)`; `rawSockOk` whether
`JVM_Socket(AF_INET, SOCK_RAW, IPPROTO_ICMP)` succeeds; `tcpSockOk`
whether `JVM_Socket(AF_INET, SOCK_STREAM, 0)` succeeds; `ping` and `tcp`
the oracles of the two probe modes; `pingBindFails` the `bind` result
inside `ping4`. -/
structure ReachEnv where
  addrLen : Nat
  rawSockOk : Bool
  ping : PingEnv
  pingBindFails : Bool
  tcpSockOk : Bool
  tcp : TcpEnv

/-- `Java_java_net_Inet4AddressImpl_isReachable0` (lines 703-849): a target
byte array whose length is not 4 returns `JNI_FALSE` at once (lines
722-725); otherwise a raw ICMP socket is attempted — on success the probe
is `ping4`, on failure the TCP stream socket is attempted, whose own
creation failure throws (`ProbeError`, lines 768-776), and otherwise the
TCP fallback decision runs. -/
def isReachable0 (e : ReachEnv) (hasNetif : Bool) (pid addr : Nat) (timeout : Int) :
    ProbeOutcome :=
  if e.addrLen ≠ 4 then ProbeOutcome.Unreachable
  else if e.rawSockOk then ping4 e.ping e.pingBindFails hasNetif pid addr timeout
  else if !e.tcpSockOk then ProbeOutcome.ProbeError
  else tcpProbe e.tcp hasNetif

/-- C `isspace` on an `unsigned char`: space (32) or the control range
horizontal tab (9) to carriage return (13). -/
def isspaceB (b : Nat) : Bool :=
  decide (b = 32) || (decide (9 ≤ b) && decide (b ≤ 13))

/-- The first byte `hostname[0]` of a C string obtained from the input name:
the NUL terminator (0) when the string is empty, else the first
character's code point reduced by the `(unsigned char)` cast. -/
def firstByte (s : String) : Nat :=
  match s.data with
  | [] => 0
  | c :: _ => c.toNat % 256

/-- Error outcome of a resolution call: the thrown
`java.net.UnknownHostException`. -/
inductive ResolutionError where
  | UnknownHost
deriving DecidableEq, Repr

/-- One element of the array `lookupAllHostAddr` returns: a 32-bit IPv4
address value plus the hostname string stored into the
`InetAddress.hostName` field. -/
structure HostAddress where
  addr : Nat
  hostName : String
deriving DecidableEq, Repr

/-- What the OS resolver reports for one forward lookup: the canonical name
(`ai_canonname` of the first record, present only when the resolver found
one) and the stream of IPv4 address records in the order the resolver
returns them (each record's `sin_addr.s_addr` as a 32-bit value). -/
structure ResolverReply where
  canonname : Option String
  records : List Nat
deriving DecidableEq, Repr

/-- The deduplication loop of the getaddrinfo-based `lookupAllHostAddr`
(lines 171-208): walk the record stream, keeping a record only when no
already-kept record has the same `s_addr` value, appending kept records at
the tail (`last->ai_next = next`), so kept records stay in first-occurrence
order.  `seen` is the list of kept addresses (`resNew`) so far. -/
def dedupFirst (seen : List Nat) : List Nat → List Nat
  | [] => []
  | a :: rest =>
      if seen.contains a then dedupFirst seen rest
      else a :: dedupFirst (seen ++ [a]) rest

/-- `Java_java_net_Inet4AddressImpl_lookupAllHostAddr`, getaddrinfo-based
variant (`_ALLBSD_SOURCE` branch, lines 118-259).  The whitespace guard
(lines 153-158) throws `UnknownHostException` before `getaddrinfo` is
called; a resolver error throws `UnknownHostException`; otherwise the
deduplicated records are written into the result array at index
`retLen - i - 1` (line 237), i.e. in reverse of the deduplicated order,
each tagged with `name = NewStringUTF(env, hostname)` — the literal input
string (line 214); the reply's `ai_canonname` is never read.  `reply` is
`Except.error` when `getaddrinfo` returns nonzero.  `ntohl` on the stored
address is byte-order conversion, the identity on the modelled integer
address value. -/
def lookupAllHostAddr (hostname : String) (reply : Except Unit ResolverReply) :
    Except ResolutionError (List HostAddress) :=
  if isspaceB (firstByte hostname) then Except.error ResolutionError.UnknownHost
  else
    match reply with
    | Except.error _ => Except.error ResolutionError.UnknownHost
    | Except.ok r =>
        Except.ok (((dedupFirst [] r.records).map
          (fun a => { addr := a, hostName := hostname : HostAddress })).reverse)

/-- `Java_java_net_Inet4AddressImpl_lookupAllHostAddr`, gethostbyname_r-based
variant (lines 404-510).  The whitespace guard (lines 434-445) is compiled
only `#ifdef __solaris__`; a failed lookup (`hp == NULL`, including the
retried big-buffer attempt) throws `UnknownHostException`; otherwise the
`h_addr_list` records are emitted in stream order, without any
deduplication, at index `i` (line 494), each tagged with `host` — the
literal input string (line 493). -/
def lookupAllHostAddrR (hostname : String) (solaris : Bool)
    (reply : Except Unit (List Nat)) : Except ResolutionError (List HostAddress) :=
  if solaris && isspaceB (firstByte hostname) then Except.error ResolutionError.UnknownHost
  else
    match reply with
    | Except.error _ => Except.error ResolutionError.UnknownHost
    | Except.ok records =>
        Except.ok (records.map (fun a => { addr := a, hostName := hostname : HostAddress }))

/-- The fully-qualified-name test of the gethostbyname_r-based
`getLocalHostName` (lines 378-380): the reverse-resolved name `p` replaces
the OS name `hn` only when `strlen(p) > strlen(hn)`, `hn` is a prefix of
`p` (`strncmp(hn, p, strlen(hn)) == 0`) and the character right after the
prefix is a dot (`*(p + strlen(hn)) == '.'`). -/
def fqdnCheck (hn p : String) : Bool :=
  decide (hn.length < p.length) && decide (p.data.take hn.length = hn.data)
    && decide (p.data.getD hn.length ' ' = '.')

/-- `Java_java_net_Inet4AddressImpl_getLocalHostName`, gethostbyname_r-based
variant (lines 327-386).  `osName` is the name reported by
`JVM_GetHostName` (`none` = the call failed); `revName` is the `h_name`
produced by the forward (`gethostbyname_r`) then reverse
(`gethostbyaddr_r`) chain (`none` = either step failed).  A failed
`JVM_GetHostName` yields the literal `"localhost"`; a failed chain leaves
the OS name; a successful chain replaces it only when `fqdnCheck`
passes. -/
def getLocalHostNameR (osName : Option String) (revName : Option String) : String :=
  match osName with
  | none => "localhost"
  | some hn =>
      match revName with
      | none => hn
      | some p => if fqdnCheck hn p then p else hn

/-- `Java_java_net_Inet4AddressImpl_getLocalHostName`, getaddrinfo-based
variant (`_ALLBSD_SOURCE` branch, lines 65-100).  A failed
`JVM_GetHostName` yields `"localhost"`; otherwise `getaddrinfo` then
`getnameinfo(..., NI_NAMEREQD)` run, and on success `getnameinfo` writes
the resolved name straight into the `hostname` buffer — replacing the OS
name unconditionally, with no length or dot-prefix test; if either call
fails the buffer still holds the OS name. -/
def getLocalHostNameAI (osName : Option String) (revName : Option String) : String :=
  match osName with
  | none => "localhost"
  | some hn =>
      match revName with
      | none => hn
      | some p => p

/-- One step of the 16-bit one's-complement sum: add with end-around carry
(a carry out of bit 15 is added back in, i.e. 65535 is subtracted). -/
def eac (a b : Nat) : Nat :=
  if a + b ≤ 65535 then a + b else a + b - 65535

/-- The 16-bit one's-complement sum of a list of 16-bit words. -/
def onesSum (ws : List Nat) : Nat :=
  (ws.foldl eac 0)

/-- Modelled from the spec: `in_cksum`, called at line 650, is not part of
`src/` (it lives in the JDK's shared native net utilities).  Spec §6:
"checksum is the 16-bit one's-complement sum of the packet treated as an
array of 16-bit words (odd trailing byte zero-padded), with the checksum
field zero during computation" — the checksum is the one's complement
(16-bit bitwise negation, i.e. `65535 - ·`) of the one's-complement sum of
the words. -/
def in_cksum (ws : List Nat) : Nat :=
  65535 - onesSum ws

/-- Modelled from the spec: the packet bytes paired into 16-bit words, an
odd trailing byte zero-padded (spec §6). -/
def toWords : List Nat → List Nat
  | [] => []
  | [b] => [b * 256]
  | b1 :: b2 :: rest => (b1 * 256 + b2) :: toWords rest

/-- The specification's description of deduplication (spec §4.1): keep the
first occurrence of every address, in order of first occurrence.  Written
from the spec's words, to be compared with the behaviour of
`lookupAllHostAddr`, which is translated from the source. -/
def firstOccurrenceOrder (records : List Nat) : List Nat :=
  records.foldl (fun acc a => if a ∈ acc then acc else acc ++ [a]) []

end Inet4Impl

namespace Inet4Impl

theorem contains_eq_false_of_not_mem {a : Nat} {l : List Nat} (h : a ∉ l) :
    l.contains a = false := by
  cases hc : l.contains a with
  | false => rfl
  | true => exact absurd (List.elem_iff.mp hc) h

theorem dedupFirst_foldl (l : List Nat) : ∀ seen : List Nat,
    l.foldl (fun acc a => if a ∈ acc then acc else acc ++ [a]) seen =
      seen ++ dedupFirst seen l := by
  induction l with
  | nil => intro seen; simp [dedupFirst]
  | cons a rest ih =>
      intro seen
      by_cases h : a ∈ seen
      · have hc : seen.contains a = true := List.elem_iff.mpr h
        simp [dedupFirst, hc, h, ih seen]
      · have hc : seen.contains a = false := contains_eq_false_of_not_mem h
        simp [dedupFirst, hc, h, ih (seen ++ [a]), List.append_assoc]

theorem dedupFirst_disjoint_nodup (l : List Nat) : ∀ seen : List Nat,
    (∀ a ∈ dedupFirst seen l, a ∉ seen) ∧ (dedupFirst seen l).Nodup := by
  induction l with
  | nil => intro seen; simp [dedupFirst]
  | cons a rest ih =>
      intro seen
      by_cases h : a ∈ seen
      · have hc : seen.contains a = true := List.elem_iff.mpr h
        simpa [dedupFirst, hc, h] using ih seen
      · have hc : seen.contains a = false := contains_eq_false_of_not_mem h
        have hrec := ih (seen ++ [a])
        simp only [dedupFirst, hc, Bool.false_eq_true, if_false]
        constructor
        · intro b hb
          rcases List.mem_cons.mp hb with rfl | hb2
          · exact h
          · intro hbseen
            exact hrec.1 b hb2 (List.mem_append.mpr (Or.inl hbseen))
        · refine List.nodup_cons.mpr ⟨?_, hrec.2⟩
          intro ha
          exact hrec.1 a ha (List.mem_append.mpr (Or.inr (List.mem_singleton.mpr rfl)))

theorem map_mk_addr (hostname : String) (l : List Nat) :
    (l.map (fun a => { addr := a, hostName := hostname : HostAddress })).map
      HostAddress.addr = l := by
  induction l with
  | nil => rfl
  | cons a t ih => simp [ih]

/-- C1: the claim states that `ResolveHost` output has no duplicate
addresses and appears in first-occurrence order of the record stream.
The getaddrinfo-based variant deduplicates but emits the entries in
reverse of first-occurrence order (record stream `[1, 2]` produces
addresses `[2, 1]`), and the gethostbyname_r-based variant does not
deduplicate at all (stream `[7, 7]` produces `[7, 7]`), so the claim as
stated is false. -/
theorem c1_counterexample :
    lookupAllHostAddr "example" (Except.ok ⟨none, [1, 2]⟩) =
      Except.ok [⟨2, "example"⟩, ⟨1, "example"⟩] ∧
    [(2 : Nat), 1] ≠ [1, 2] ∧
    lookupAllHostAddrR "example" false (Except.ok [7, 7]) =
      Except.ok [⟨7, "example"⟩, ⟨7, "example"⟩] ∧
    ¬ ([(7 : Nat), 7].Nodup) := by
  refine ⟨rfl, by decide, rfl, by decide⟩

/-- C1 (amended): when the lookup name passes the whitespace guard, the
getaddrinfo-based `lookupAllHostAddr` emits each distinct address exactly
once, in the REVERSE of the order of first occurrence in the record
stream, while the gethostbyname_r-based variant emits the raw record
stream unchanged, duplicates included. -/
theorem c1_dedup_reverse_order (hostname : String) (canon : Option String)
    (records : List Nat) (hg : isspaceB (firstByte hostname) = false) :
    (∃ out, lookupAllHostAddr hostname (Except.ok ⟨canon, records⟩) = Except.ok out ∧
      out.map HostAddress.addr = (firstOccurrenceOrder records).reverse ∧
      (out.map HostAddress.addr).Nodup) ∧
    (∃ out, lookupAllHostAddrR hostname false (Except.ok records) = Except.ok out ∧
      out.map HostAddress.addr = records) := by
  constructor
  · refine ⟨((dedupFirst [] records).map
      (fun a => { addr := a, hostName := hostname : HostAddress })).reverse, ?_, ?_, ?_⟩
    · simp [lookupAllHostAddr, hg]
    · have h := dedupFirst_foldl records []
      simp only [List.nil_append] at h
      rw [List.map_reverse, map_mk_addr, firstOccurrenceOrder, h]
    · rw [List.map_reverse, map_mk_addr, List.nodup_reverse]
      exact (dedupFirst_disjoint_nodup records []).2
  · refine ⟨records.map (fun a => { addr := a, hostName := hostname : HostAddress }), ?_, ?_⟩
    · simp [lookupAllHostAddrR]
    · exact map_mk_addr hostname records

theorem c1_dedup_reverse_order_witness :
    isspaceB (firstByte "example") = false ∧
    (∃ out, lookupAllHostAddr "example" (Except.ok ⟨none, [1, 2, 1, 3]⟩) = Except.ok out ∧
      out.map HostAddress.addr = (firstOccurrenceOrder [1, 2, 1, 3]).reverse ∧
      (out.map HostAddress.addr).Nodup) ∧
    (∃ out, lookupAllHostAddrR "example" false (Except.ok [1, 2, 1, 3]) = Except.ok out ∧
      out.map HostAddress.addr = [1, 2, 1, 3]) := by
  refine ⟨by decide, ?_⟩
  exact c1_dedup_reverse_order "example" none [1, 2, 1, 3] (by decide)

/-- C7: the claim states that each emitted `HostAddress` is tagged with the
resolver's canonical name when one was found.  The code requests the
canonical name (`AI_CANONNAME`) but never reads it: with canonical name
`"h.example.com"` reported for input `"h"`, the emitted entry is tagged
`"h"`. -/
theorem c7_counterexample :
    lookupAllHostAddr "h" (Except.ok ⟨some "h.example.com", [5]⟩) =
      Except.ok [⟨5, "h"⟩] ∧ ("h" : String) ≠ "h.example.com" := by
  exact ⟨rfl, by decide⟩

/-- C7 (amended): every `HostAddress` emitted by either variant of
`lookupAllHostAddr` is tagged with the literal input name, and the
canonical name reported by the resolver has no effect on the result. -/
theorem c7_literal_name_tag (hostname : String) (reply : ResolverReply)
    (solaris : Bool) (records : List Nat) (out out2 : List HostAddress)
    (h1 : lookupAllHostAddr hostname (Except.ok reply) = Except.ok out)
    (h2 : lookupAllHostAddrR hostname solaris (Except.ok records) = Except.ok out2) :
    (∀ ha ∈ out, ha.hostName = hostname) ∧
    (∀ ha ∈ out2, ha.hostName = hostname) ∧
    (∀ canon canon2, lookupAllHostAddr hostname (Except.ok ⟨canon, reply.records⟩) =
      lookupAllHostAddr hostname (Except.ok ⟨canon2, reply.records⟩)) := by
  refine ⟨?_, ?_, ?_⟩
  · intro ha hmem
    by_cases hg : isspaceB (firstByte hostname)
    · simp [lookupAllHostAddr, hg] at h1
    · simp only [lookupAllHostAddr, hg, if_false, Bool.false_eq_true,
        Except.ok.injEq] at h1
      subst h1
      simp only [List.mem_reverse, List.mem_map] at hmem
      obtain ⟨a, _, rfl⟩ := hmem
      rfl
  · intro ha hmem
    by_cases hg : (solaris && isspaceB (firstByte hostname)) = true
    · simp [lookupAllHostAddrR, hg] at h2
    · simp only [lookupAllHostAddrR, hg, if_false, Bool.false_eq_true,
        Except.ok.injEq] at h2
      subst h2
      obtain ⟨a, _, rfl⟩ := List.mem_map.mp hmem
      rfl
  · intro canon canon2
    simp [lookupAllHostAddr]

theorem c7_literal_name_tag_witness :
    lookupAllHostAddr "h" (Except.ok ⟨some "h.example.com", [5]⟩) =
        Except.ok [⟨5, "h"⟩] ∧
    lookupAllHostAddrR "h" false (Except.ok [5]) = Except.ok [⟨5, "h"⟩] ∧
    (∀ ha ∈ ([⟨5, "h"⟩] : List HostAddress), ha.hostName = "h") := by
  refine ⟨rfl, rfl, ?_⟩
  exact (c7_literal_name_tag "h" ⟨some "h.example.com", [5]⟩ false [5]
    [⟨5, "h"⟩] [⟨5, "h"⟩] rfl rfl).1

/-- C8: the claim states that the empty name fails with `UnknownHost`
without any resolver query.  The guard tests `isspace(hostname[0])`, and
for the empty string `hostname[0]` is the NUL terminator, which is not
whitespace: the empty name is passed to the resolver, and the outcome
depends on the resolver's reply — with a reply carrying one record the
call even succeeds. -/
theorem c8_counterexample :
    lookupAllHostAddr "" (Except.ok ⟨none, [1]⟩) = Except.ok [⟨1, ""⟩] ∧
    lookupAllHostAddr "" (Except.error ()) = Except.error ResolutionError.UnknownHost ∧
    (Except.ok [⟨1, ""⟩] : Except ResolutionError (List HostAddress)) ≠
      Except.error ResolutionError.UnknownHost := by
  exact ⟨rfl, rfl, by simp⟩

/-- C8 (amended): every name whose first byte is whitespace fails with
`UnknownHost` for every possible resolver reply — i.e. without consulting
the resolver; the empty name is not caught by the guard (its first byte is
the NUL terminator 0, which `isspace` rejects) and is forwarded to the
resolver. -/
theorem c8_whitespace_guard (hostname : String) (reply : Except Unit ResolverReply)
    (h : isspaceB (firstByte hostname) = true) :
    lookupAllHostAddr hostname reply = Except.error ResolutionError.UnknownHost ∧
    firstByte "" = 0 ∧ isspaceB (firstByte "") = false := by
  exact ⟨by simp [lookupAllHostAddr, h], rfl, rfl⟩

theorem c8_whitespace_guard_witness :
    isspaceB (firstByte " host") = true ∧
    lookupAllHostAddr " host" (Except.ok ⟨none, [1]⟩) =
      Except.error ResolutionError.UnknownHost := by
  exact ⟨by decide, (c8_whitespace_guard " host" (Except.ok ⟨none, [1]⟩) (by decide)).1⟩

/-- C9: the claim states that the canonicalized name replaces the
OS-reported name only when strictly longer with the OS name as a proper
dot-separated prefix.  That is true of the gethostbyname_r-based variant,
but the getaddrinfo-based variant overwrites the hostname buffer with any
successfully reverse-resolved name: with OS name `"myhost"` and resolved
name `"peer"` (not longer, not a dot-prefixed extension) the result is
`"peer"`. -/
theorem c9_counterexample :
    getLocalHostNameAI (some "myhost") (some "peer") = "peer" ∧
    fqdnCheck "myhost" "peer" = false ∧ ("peer" : String) ≠ "myhost" := by
  exact ⟨rfl, by decide, by decide⟩

/-- C9 (amended): `getLocalHostName` never fails — a failed
`JVM_GetHostName` yields the literal `"localhost"`, a failed resolution
chain yields the raw OS name; in the gethostbyname_r-based variant the
resolved name replaces the OS name exactly when it is strictly longer and
extends the OS name at a dot boundary (`fqdnCheck`), while in the
getaddrinfo-based variant any successfully resolved name replaces the OS
name unconditionally. -/
theorem c9_local_host_name (hn p : String) (rev : Option String) :
    getLocalHostNameR none rev = "localhost" ∧
    getLocalHostNameR (some hn) none = hn ∧
    getLocalHostNameR (some hn) (some p) = (if fqdnCheck hn p then p else hn) ∧
    (fqdnCheck hn p = true → hn.length < p.length ∧
      p.data.take hn.length = hn.data ∧ p.data.getD hn.length ' ' = '.') ∧
    getLocalHostNameAI none rev = "localhost" ∧
    getLocalHostNameAI (some hn) none = hn ∧
    getLocalHostNameAI (some hn) (some p) = p := by
  refine ⟨rfl, rfl, rfl, ?_, rfl, rfl, rfl⟩
  intro h
  simp only [fqdnCheck, Bool.and_eq_true, decide_eq_true_eq] at h
  exact ⟨h.1.1, h.1.2, h.2⟩

theorem c9_local_host_name_witness :
    fqdnCheck "myhost" "myhost.example.com" = true ∧
    ("myhost".length < "myhost.example.com".length ∧
      "myhost.example.com".data.take "myhost".length = "myhost".data ∧
      "myhost.example.com".data.getD "myhost".length ' ' = '.') ∧
    getLocalHostNameR (some "myhost") (some "myhost.example.com") =
      "myhost.example.com" := by
  refine ⟨by decide, (c9_local_host_name "myhost" "myhost.example.com" none).2.2.2.1
    (by decide), ?_⟩
  have h := (c9_local_host_name "myhost" "myhost.example.com" none).2.2.1
  rw [h, if_pos (by decide)]

/-- C10: a target address byte array whose length is not 4 makes
`isReachable0` return `JNI_FALSE` immediately, for every possible state of
the socket oracles (so no socket is opened and no error raised). -/
theorem c10_bad_length_returns_false (e : ReachEnv) (hasNetif : Bool) (pid addr : Nat)
    (timeout : Int) (h : e.addrLen ≠ 4) :
    isReachable0 e hasNetif pid addr timeout = ProbeOutcome.Unreachable := by
  simp [isReachable0, h]

theorem c10_bad_length_returns_false_witness :
    (3 : Nat) ≠ 4 ∧
    isReachable0 ⟨3, true, ⟨fun _ => none, fun _ => []⟩, false, true,
      ⟨false, true, 0, false, 0⟩⟩ false 1 2 1000 = ProbeOutcome.Unreachable := by
  exact ⟨by decide, c10_bad_length_returns_false _ false 1 2 1000 (by decide)⟩

/-- C3: when the raw ICMP socket cannot be created, `isReachable0` never
raises an error for that — it proceeds with the TCP fallback decision; and
when, in fallback mode, the TCP stream socket itself cannot be created,
the outcome is `ProbeError` with no further fallback. -/
theorem c3_fallback_policy (e : ReachEnv) (hasNetif : Bool) (pid addr : Nat)
    (timeout : Int) (hlen : e.addrLen = 4) (hraw : e.rawSockOk = false) :
    (e.tcpSockOk = true →
      isReachable0 e hasNetif pid addr timeout = tcpProbe e.tcp hasNetif) ∧
    (e.tcpSockOk = false →
      isReachable0 e hasNetif pid addr timeout = ProbeOutcome.ProbeError) := by
  constructor <;> intro h <;> simp [isReachable0, hlen, hraw, h]

theorem c3_fallback_policy_witness :
    isReachable0 ⟨4, false, ⟨fun _ => none, fun _ => []⟩, false, true,
      ⟨false, true, 0, false, 0⟩⟩ false 1 2 1000 =
      tcpProbe ⟨false, true, 0, false, 0⟩ false ∧
    isReachable0 ⟨4, false, ⟨fun _ => none, fun _ => []⟩, false, false,
      ⟨false, true, 0, false, 0⟩⟩ false 1 2 1000 = ProbeOutcome.ProbeError := by
  exact ⟨(c3_fallback_policy _ false 1 2 1000 rfl rfl).1 rfl,
    (c3_fallback_policy _ false 1 2 1000 rfl rfl).2 rfl⟩

/-- C2: in TCP fallback mode the outcome is exactly as the claim's case
analysis describes it, provided `bind` did not fail (the claim's cases
presuppose the connection attempt is reached): immediate success or
`ECONNREFUSED` yield `Reachable`; `ENETUNREACH`, `EAFNOSUPPORT`,
`EADDRNOTAVAIL` and the loopback `EINVAL` quirk yield `Unreachable`; any
other non-`EINPROGRESS` failure yields `ProbeError`; on `EINPROGRESS` a
timed-out wait yields `Unreachable`, and a writable socket yields
`Reachable` when the pending error is 0 or `ECONNREFUSED` and
`Unreachable` otherwise. -/
theorem c2_tcp_decision (te : TcpEnv) (hasNetif : Bool)
    (hbind : hasNetif = true → te.bindFails = false) :
    tcpProbe te hasNetif = tcpOutcomeSpec te := by
  have hb : (hasNetif && te.bindFails) = false := by
    cases hasNetif with
    | false => rfl
    | true => simp [hbind rfl]
  simp only [tcpProbe, hb, Bool.false_eq_true, if_false, tcpOutcomeSpec,
    EINPROGRESS, ECONNREFUSED, ENETUNREACH, EAFNOSUPPORT, EADDRNOTAVAIL, EINVAL]
  cases hok : te.connectOk with
  | true => simp
  | false =>
      by_cases h1 : te.err = 111
      · simp [h1]
      · by_cases h2 : te.err = 101
        · simp [h1, h2]
        · by_cases h3 : te.err = 97
          · simp [h1, h2, h3]
          · by_cases h4 : te.err = 99
            · simp [h1, h2, h3, h4]
            · by_cases h5 : te.err = 22
              · simp [h1, h2, h3, h4, h5]
              · by_cases h6 : te.err = 115
                · by_cases h7 : te.waitTimedOut
                  · simp [h1, h2, h3, h4, h5, h6, h7]
                  · by_cases h8 : te.soErr = 0
                    · simp [h1, h2, h3, h4, h5, h6, h7, h8]
                    · by_cases h9 : te.soErr = 111
                      · simp [h1, h2, h3, h4, h5, h6, h7, h8, h9]
                      · simp [h1, h2, h3, h4, h5, h6, h7, h8, h9]
                · simp [h1, h2, h3, h4, h5, h6]

theorem recvLoop_true_exists (pid addr : Nat) :
    ∀ (events : List (Nat × Packet)) (b : Int), recvLoop pid addr events b = true →
      ∃ ev ∈ events, acceptReply pid addr ev.2 = true := by
  intro events
  induction events with
  | nil => intro b h; simp [recvLoop] at h
  | cons e rest ih =>
      intro b h
      obtain ⟨el, p⟩ := e
      rw [recvLoop] at h
      by_cases h1 : b ≤ (el : Int)
      · rw [if_pos h1] at h; cases h
      · rw [if_neg h1] at h
        by_cases h2 : acceptReply pid addr p = true
        · exact ⟨(el, p), List.mem_cons_self _ _, h2⟩
        · rw [if_neg h2] at h
          obtain ⟨ev, hm, ha⟩ := ih (b - (el : Int)) h
          exact ⟨ev, List.mem_cons_of_mem _ hm, ha⟩

theorem recvLoop_eq_false (pid addr : Nat) :
    ∀ (events : List (Nat × Packet)),
      (∀ ev ∈ events, acceptReply pid addr ev.2 = false) →
      ∀ b : Int, recvLoop pid addr events b = false := by
  intro events
  induction events with
  | nil => intro _ b; rfl
  | cons e rest ih =>
      intro hev b
      obtain ⟨el, p⟩ := e
      have hp : acceptReply pid addr p = false := hev (el, p) (List.mem_cons_self _ _)
      rw [recvLoop]
      by_cases h1 : b ≤ (el : Int)
      · rw [if_pos h1]
      · rw [if_neg h1, if_neg (by simp [hp])]
        exact ih (fun ev hm => hev ev (List.mem_cons_of_mem _ hm)) (b - (el : Int))

theorem ping4Loop_reachable_exists (pe : PingEnv) (pid addr : Nat) :
    ∀ (n : Nat) (timeout : Int), timeout.toNat ≤ n → ∀ (seq : Nat),
      ping4Loop pe pid addr timeout seq = ProbeOutcome.Reachable →
      ∃ s, ∃ ev ∈ pe.events s, acceptReply pid addr ev.2 = true := by
  intro n
  induction n with
  | zero =>
      intro timeout ht seq h
      rw [ping4Loop] at h
      cases hse : pe.sendErr seq with
      | none =>
          rw [hse] at h
          dsimp only at h
          by_cases hr : recvLoop pid addr (pe.events seq) (waitBudget timeout) = true
          · exact ⟨seq, recvLoop_true_exists pid addr _ _ hr⟩
          · rw [if_neg hr, if_neg (by omega : ¬ timeout - 1000 > 0)] at h
            cases h
      | some e =>
          rw [hse] at h
          dsimp only at h
          by_cases he : e = EINPROGRESS
          · rw [if_pos he] at h
            by_cases hr : recvLoop pid addr (pe.events seq) (waitBudget timeout) = true
            · exact ⟨seq, recvLoop_true_exists pid addr _ _ hr⟩
            · rw [if_neg hr, if_neg (by omega : ¬ timeout - 1000 > 0)] at h
              cases h
          · rw [if_neg he] at h
            by_cases hi : e = EINVAL
            · rw [if_pos hi] at h; cases h
            · rw [if_neg hi] at h; cases h
  | succ n ih =>
      intro timeout ht seq h
      rw [ping4Loop] at h
      cases hse : pe.sendErr seq with
      | none =>
          rw [hse] at h
          dsimp only at h
          by_cases hr : recvLoop pid addr (pe.events seq) (waitBudget timeout) = true
          · exact ⟨seq, recvLoop_true_exists pid addr _ _ hr⟩
          · rw [if_neg hr] at h
            by_cases hgt : timeout - 1000 > 0
            · rw [if_pos hgt] at h
              exact ih (timeout - 1000) (by omega) (seq + 1) h
            · rw [if_neg hgt] at h; cases h
      | some e =>
          rw [hse] at h
          dsimp only at h
          by_cases he : e = EINPROGRESS
          · rw [if_pos he] at h
            by_cases hr : recvLoop pid addr (pe.events seq) (waitBudget timeout) = true
            · exact ⟨seq, recvLoop_true_exists pid addr _ _ hr⟩
            · rw [if_neg hr] at h
              by_cases hgt : timeout - 1000 > 0
              · rw [if_pos hgt] at h
                exact ih (timeout - 1000) (by omega) (seq + 1) h
              · rw [if_neg hgt] at h; cases h
          · rw [if_neg he] at h
            by_cases hi : e = EINVAL
            · rw [if_pos hi] at h; cases h
            · rw [if_neg hi] at h; cases h

theorem ping4Loop_no_reply (pe : PingEnv) (pid addr : Nat)
    (hsend : ∀ s, pe.sendErr s = none)
    (hev : ∀ s, ∀ ev ∈ pe.events s, acceptReply pid addr ev.2 = false) :
    ∀ (n : Nat) (timeout : Int), timeout.toNat ≤ n → ∀ (seq : Nat),
      ping4Loop pe pid addr timeout seq = ProbeOutcome.Unreachable := by
  intro n
  induction n with
  | zero =>
      intro timeout ht seq
      rw [ping4Loop, hsend seq]
      dsimp only
      rw [recvLoop_eq_false pid addr _ (hev seq) _]
      rw [if_neg (by simp), if_neg (by omega : ¬ timeout - 1000 > 0)]
  | succ n ih =>
      intro timeout ht seq
      rw [ping4Loop, hsend seq]
      dsimp only
      rw [recvLoop_eq_false pid addr _ (hev seq) _]
      rw [if_neg (by simp)]
      by_cases hgt : timeout - 1000 > 0
      · rw [if_pos hgt]
        exact ih (timeout - 1000) (by omega) (seq + 1)
      · rw [if_neg hgt]

theorem ping4Iters_no_reply (pe : PingEnv) (pid addr : Nat)
    (hsend : ∀ s, pe.sendErr s = none)
    (hev : ∀ s, ∀ ev ∈ pe.events s, acceptReply pid addr ev.2 = false) :
    ∀ (n : Nat) (timeout : Int), timeout.toNat ≤ n → ∀ (seq : Nat),
      ping4Iters pe pid addr timeout seq = max 1 ((timeout.toNat + 999) / 1000) := by
  intro n
  induction n with
  | zero =>
      intro timeout ht seq
      rw [ping4Iters, hsend seq]
      dsimp only
      rw [recvLoop_eq_false pid addr _ (hev seq) _]
      rw [if_neg (by simp), if_neg (by omega : ¬ timeout - 1000 > 0)]
      omega
  | succ n ih =>
      intro timeout ht seq
      rw [ping4Iters, hsend seq]
      dsimp only
      rw [recvLoop_eq_false pid addr _ (hev seq) _]
      rw [if_neg (by simp)]
      by_cases hgt : timeout - 1000 > 0
      · rw [if_pos hgt, ih (timeout - 1000) (by omega) (seq + 1)]
        omega
      · rw [if_neg hgt]
        omega

theorem ping4Iters_le (pid addr : Nat) :
    ∀ (n : Nat) (pe : PingEnv) (timeout : Int), timeout.toNat ≤ n → ∀ (seq : Nat),
      ping4Iters pe pid addr timeout seq ≤ max 1 ((timeout.toNat + 999) / 1000) := by
  intro n
  induction n with
  | zero =>
      intro pe timeout ht seq
      rw [ping4Iters]
      cases hse : pe.sendErr seq with
      | none =>
          dsimp only
          by_cases hr : recvLoop pid addr (pe.events seq) (waitBudget timeout) = true
          · rw [if_pos hr]; omega
          · rw [if_neg hr, if_neg (by omega : ¬ timeout - 1000 > 0)]; omega
      | some e =>
          dsimp only
          by_cases he : e = EINPROGRESS
          · rw [if_pos he]
            by_cases hr : recvLoop pid addr (pe.events seq) (waitBudget timeout) = true
            · rw [if_pos hr]; omega
            · rw [if_neg hr, if_neg (by omega : ¬ timeout - 1000 > 0)]; omega
          · rw [if_neg he]; omega
  | succ n ih =>
      intro pe timeout ht seq
      rw [ping4Iters]
      cases hse : pe.sendErr seq with
      | none =>
          dsimp only
          by_cases hr : recvLoop pid addr (pe.events seq) (waitBudget timeout) = true
          · rw [if_pos hr]; omega
          · rw [if_neg hr]
            by_cases hgt : timeout - 1000 > 0
            · rw [if_pos hgt]
              have hb := ih pe (timeout - 1000) (by omega) (seq + 1)
              omega
            · rw [if_neg hgt]; omega
      | some e =>
          dsimp only
          by_cases he : e = EINPROGRESS
          · rw [if_pos he]
            by_cases hr : recvLoop pid addr (pe.events seq) (waitBudget timeout) = true
            · rw [if_pos hr]; omega
            · rw [if_neg hr]
              by_cases hgt : timeout - 1000 > 0
              · rw [if_pos hgt]
                have hb := ih pe (timeout - 1000) (by omega) (seq + 1)
                omega
              · rw [if_neg hgt]; omega
          · rw [if_neg he]; omega

/-- C4: the ICMP echo loop of `ping4` always terminates (`ping4Loop` is a
total function): each outer iteration waits with slice budget
`waitBudget timeout = min timeout 1000` and then decrements the remaining
timeout by exactly 1000, so the number of echo requests sent is at most
`max 1 ⌈timeout/1000⌉` — and exactly that when no send fails and no
matching reply ever arrives, in which case the outcome is `Unreachable`. -/
theorem c4_icmp_loop_bounded (pe : PingEnv) (pid addr : Nat) (timeout : Int) (seq : Nat)
    (hsend : ∀ s, pe.sendErr s = none)
    (hev : ∀ s, ∀ ev ∈ pe.events s, acceptReply pid addr ev.2 = false) :
    ping4Loop pe pid addr timeout seq = ProbeOutcome.Unreachable ∧
    ping4Iters pe pid addr timeout seq = max 1 ((timeout.toNat + 999) / 1000) ∧
    (∀ (pe2 : PingEnv) (t : Int) (s : Nat),
      ping4Iters pe2 pid addr t s ≤ max 1 ((t.toNat + 999) / 1000)) ∧
    (∀ t : Int, waitBudget t = min t 1000) := by
  refine ⟨ping4Loop_no_reply pe pid addr hsend hev timeout.toNat timeout le_rfl seq,
    ping4Iters_no_reply pe pid addr hsend hev timeout.toNat timeout le_rfl seq,
    fun pe2 t s => ping4Iters_le pid addr t.toNat pe2 t le_rfl s, ?_⟩
  intro t
  rw [waitBudget]
  split <;> omega

theorem c4_icmp_loop_bounded_witness :
    ping4Loop ⟨fun _ => none, fun _ => []⟩ 1 2 2500 1 = ProbeOutcome.Unreachable ∧
    ping4Iters ⟨fun _ => none, fun _ => []⟩ 1 2 2500 1 = 3 := by
  have h := c4_icmp_loop_bounded ⟨fun _ => none, fun _ => []⟩ 1 2 2500 1
    (fun _ => rfl) (fun s ev hm => absurd hm (List.not_mem_nil ev))
  refine ⟨h.1, ?_⟩
  rw [h.2.1]
  decide

/-- C5: a received packet makes the ICMP probe return `Reachable` only if
its ICMP type is echo-reply, its echo identifier equals the identifier of
this call and its source address equals the target address (the code also
requires at least 8 ICMP payload bytes); a packet failing the acceptance
test is ignored — arriving within the wait budget it leaves the receive
loop running on the remaining events with the remaining budget — and
`ping4Loop` can return `Reachable` only when some delivered packet passes
the acceptance test. -/
theorem c5_reply_acceptance (pid addr : Nat) (p : Packet) (el : Nat)
    (rest : List (Nat × Packet)) (b : Int) (pe : PingEnv) (timeout : Int) (seq : Nat) :
    (acceptReply pid addr p = true →
      p.icmpType = ICMP_ECHOREPLY ∧ p.icmpId = pid ∧ p.srcAddr = addr) ∧
    (acceptReply pid addr p = false → (el : Int) < b →
      recvLoop pid addr ((el, p) :: rest) b = recvLoop pid addr rest (b - (el : Int))) ∧
    (ping4Loop pe pid addr timeout seq = ProbeOutcome.Reachable →
      ∃ s, ∃ ev ∈ pe.events s, acceptReply pid addr ev.2 = true) := by
  refine ⟨?_, ?_, ?_⟩
  · intro h
    simp only [acceptReply, Bool.and_eq_true, decide_eq_true_eq] at h
    exact ⟨h.1.1.2, h.1.2, h.2⟩
  · intro hna hel
    rw [recvLoop, if_neg (not_le.mpr hel), if_neg (by simp [hna])]
  · intro h
    exact ping4Loop_reachable_exists pe pid addr timeout.toNat timeout le_rfl seq h

theorem c5_reply_acceptance_witness :
    (acceptReply 7 9 ⟨36, 5, 0, 7, 9⟩ = true ∧
      (⟨36, 5, 0, 7, 9⟩ : Packet).icmpType = ICMP_ECHOREPLY ∧
      (⟨36, 5, 0, 7, 9⟩ : Packet).icmpId = 7 ∧
      (⟨36, 5, 0, 7, 9⟩ : Packet).srcAddr = 9) ∧
    (acceptReply 7 9 ⟨36, 5, 8, 7, 9⟩ = false ∧ (0 : Int) < 1000 ∧
      recvLoop 7 9 [(0, ⟨36, 5, 8, 7, 9⟩), (0, ⟨36, 5, 0, 7, 9⟩)] 1000 =
        recvLoop 7 9 [(0, ⟨36, 5, 0, 7, 9⟩)] (1000 - (0 : Int))) ∧
    (ping4Loop ⟨fun _ => none, fun _ => [(0, ⟨36, 5, 0, 7, 9⟩)]⟩ 7 9 500 1 =
        ProbeOutcome.Reachable ∧
      ∃ s, ∃ ev ∈ (⟨fun _ => none, fun _ => [(0, ⟨36, 5, 0, 7, 9⟩)]⟩ : PingEnv).events s,
        acceptReply 7 9 ev.2 = true) := by
  have hping : ping4Loop ⟨fun _ => none, fun _ => [(0, ⟨36, 5, 0, 7, 9⟩)]⟩ 7 9 500 1 =
      ProbeOutcome.Reachable := by
    rw [ping4Loop]; decide
  refine ⟨⟨by decide, ?_⟩, ⟨by decide, by decide, ?_⟩, hping, ?_⟩
  · exact (c5_reply_acceptance 7 9 ⟨36, 5, 0, 7, 9⟩ 0 [] 0
      ⟨fun _ => none, fun _ => []⟩ 0 0).1 (by decide)
  · exact (c5_reply_acceptance 7 9 ⟨36, 5, 8, 7, 9⟩ 0 [(0, ⟨36, 5, 0, 7, 9⟩)] 1000
      ⟨fun _ => none, fun _ => []⟩ 0 0).2.1 (by decide) (by decide)
  · exact (c5_reply_acceptance 7 9 ⟨36, 5, 0, 7, 9⟩ 0 [] 0
      ⟨fun _ => none, fun _ => [(0, ⟨36, 5, 0, 7, 9⟩)]⟩ 500 1).2.2 hping

theorem c2_tcp_decision_witness :
    tcpProbe ⟨false, false, EINPROGRESS, false, ECONNREFUSED⟩ false =
      tcpOutcomeSpec ⟨false, false, EINPROGRESS, false, ECONNREFUSED⟩ ∧
    tcpOutcomeSpec ⟨false, false, EINPROGRESS, false, ECONNREFUSED⟩ =
      ProbeOutcome.Reachable := by
  exact ⟨c2_tcp_decision ⟨false, false, EINPROGRESS, false, ECONNREFUSED⟩ false
    (by intro h; exact absurd h (by decide)), by decide⟩

theorem eac_le {a b : Nat} (ha : a ≤ 65535) (hb : b ≤ 65535) : eac a b ≤ 65535 := by
  rw [eac]; split <;> omega

theorem eac_mod (a b : Nat) : eac a b % 65535 = (a + b) % 65535 := by
  rw [eac]; split <;> omega

theorem eac_pos {a b : Nat} (h : 0 < a ∨ 0 < b) : 0 < eac a b := by
  rw [eac]; split <;> omega

theorem foldl_eac_le : ∀ (ws : List Nat) (acc : Nat), acc ≤ 65535 →
    (∀ w ∈ ws, w ≤ 65535) → ws.foldl eac acc ≤ 65535 := by
  intro ws
  induction ws with
  | nil => intro acc ha _; simpa using ha
  | cons w t ih =>
      intro acc ha hw
      simp only [List.foldl_cons]
      exact ih (eac acc w) (eac_le ha (hw w (List.mem_cons_self _ _)))
        (fun x hx => hw x (List.mem_cons_of_mem _ hx))

theorem foldl_eac_mod : ∀ (ws : List Nat) (acc : Nat),
    ws.foldl eac acc % 65535 = (acc + ws.sum) % 65535 := by
  intro ws
  induction ws with
  | nil => intro acc; simp
  | cons w t ih =>
      intro acc
      simp only [List.foldl_cons, List.sum_cons]
      rw [ih (eac acc w)]
      have h := eac_mod acc w
      omega

theorem foldl_eac_pos : ∀ (ws : List Nat) (acc : Nat),
    (0 < acc ∨ ∃ w ∈ ws, 0 < w) → 0 < ws.foldl eac acc := by
  intro ws
  induction ws with
  | nil => intro acc h; simpa using h
  | cons w t ih =>
      intro acc h
      simp only [List.foldl_cons]
      apply ih
      rcases h with ha | ⟨x, hx, hxpos⟩
      · exact Or.inl (eac_pos (Or.inl ha))
      · rcases List.mem_cons.mp hx with rfl | hxt
        · exact Or.inl (eac_pos (Or.inr hxpos))
        · exact Or.inr ⟨x, hxt, hxpos⟩

theorem foldl_eac_zero : ∀ (ws : List Nat), (∀ w ∈ ws, w = 0) →
    ws.foldl eac 0 = 0 := by
  intro ws
  induction ws with
  | nil => intro _; rfl
  | cons w t ih =>
      intro h
      have hw : w = 0 := h w (List.mem_cons_self _ _)
      simp only [List.foldl_cons, hw]
      exact ih (fun x hx => h x (List.mem_cons_of_mem _ hx))

theorem sum_set_of_get_zero : ∀ (ws : List Nat) (i : Nat), ws.get? i = some 0 →
    ∀ c, (ws.set i c).sum = ws.sum + c := by
  intro ws
  induction ws with
  | nil => intro i h; cases h
  | cons w t ih =>
      intro i h c
      cases i with
      | zero =>
          simp only [List.get?_cons_zero, Option.some.injEq] at h
          subst h
          simp only [List.set, List.sum_cons]
          omega
      | succ j =>
          simp only [List.get?_cons_succ] at h
          simp only [List.set, List.sum_cons, ih j h c]
          omega

theorem mem_set_self : ∀ (ws : List Nat) (i z c : Nat), ws.get? i = some z →
    c ∈ ws.set i c := by
  intro ws
  induction ws with
  | nil => intro i z c h; cases h
  | cons w t ih =>
      intro i z c h
      cases i with
      | zero => simp [List.set]
      | succ j =>
          simp only [List.get?_cons_succ] at h
          exact List.mem_cons_of_mem _ (ih j z c h)

theorem mem_set_of_ne : ∀ (ws : List Nat) (i w c : Nat), w ∈ ws →
    ws.get? i = some 0 → w ≠ 0 → w ∈ ws.set i c := by
  intro ws
  induction ws with
  | nil => intro i w c hm; cases hm
  | cons a t ih =>
      intro i w c hm h hw
      cases i with
      | zero =>
          simp only [List.get?_cons_zero, Option.some.injEq] at h
          subst h
          rcases List.mem_cons.mp hm with rfl | hmt
          · exact absurd rfl hw
          · exact List.mem_cons_of_mem _ hmt
      | succ j =>
          simp only [List.get?_cons_succ] at h
          rcases List.mem_cons.mp hm with rfl | hmt
          · exact List.mem_cons_self _ _
          · exact List.mem_cons_of_mem _ (ih j w c hmt h hw)

theorem set_bounds : ∀ (ws : List Nat) (i c : Nat), (∀ w ∈ ws, w ≤ 65535) →
    c ≤ 65535 → ∀ w ∈ ws.set i c, w ≤ 65535 := by
  intro ws
  induction ws with
  | nil => intro i c _ _ w hw; cases hw
  | cons a t ih =>
      intro i c ha hc w hw
      cases i with
      | zero =>
          rcases List.mem_cons.mp hw with rfl | hwt
          · exact hc
          · exact ha w (List.mem_cons_of_mem _ hwt)
      | succ j =>
          rcases List.mem_cons.mp hw with rfl | hwt
          · exact ha w (List.mem_cons_self _ _)
          · exact ih j c (fun x hx => ha x (List.mem_cons_of_mem _ hx)) hc w hwt

theorem toWords_le : ∀ (bytes : List Nat), (∀ b ∈ bytes, b < 256) →
    ∀ w ∈ toWords bytes, w ≤ 65535
  | [] => by intro _ w hw; simp [toWords] at hw
  | [b] => by
      intro h w hw
      simp only [toWords, List.mem_singleton] at hw
      subst hw
      have := h b (List.mem_singleton.mpr rfl)
      omega
  | b1 :: b2 :: rest => by
      intro h w hw
      simp only [toWords] at hw
      rcases List.mem_cons.mp hw with rfl | hw2
      · have h1 := h b1 (List.mem_cons_self _ _)
        have h2 := h b2 (List.mem_cons_of_mem _ (List.mem_cons_self _ _))
        omega
      · exact toWords_le rest
          (fun b hb => h b (List.mem_cons_of_mem _ (List.mem_cons_of_mem _ hb)))
          w hw2

theorem cksum_insert (ws : List Nat) (hwle : ∀ w ∈ ws, w ≤ 65535) (i : Nat)
    (hz : ws.get? i = some 0) :
    onesSum (ws.set i (in_cksum ws)) = 65535 := by
  have hsle : onesSum ws ≤ 65535 := foldl_eac_le ws 0 (by omega) hwle
  have hceq : in_cksum ws = 65535 - onesSum ws := rfl
  have hTsum : (ws.set i (in_cksum ws)).sum = ws.sum + in_cksum ws :=
    sum_set_of_get_zero ws i hz (in_cksum ws)
  have hsmod : onesSum ws % 65535 = (0 + ws.sum) % 65535 := foldl_eac_mod ws 0
  have hTmod : onesSum (ws.set i (in_cksum ws)) % 65535 =
      (0 + (ws.set i (in_cksum ws)).sum) % 65535 := foldl_eac_mod _ 0
  have hTle : onesSum (ws.set i (in_cksum ws)) ≤ 65535 :=
    foldl_eac_le _ 0 (by omega) (set_bounds ws i (in_cksum ws) hwle (by omega))
  have hTpos : 0 < onesSum (ws.set i (in_cksum ws)) := by
    apply foldl_eac_pos
    right
    by_cases hcpos : 0 < in_cksum ws
    · exact ⟨in_cksum ws, mem_set_self ws i 0 (in_cksum ws) hz, hcpos⟩
    · have hs65535 : onesSum ws = 65535 := by omega
      have hex : ∃ w ∈ ws, 0 < w := by
        by_contra hno
        push_neg at hno
        have hzero : onesSum ws = 0 :=
          foldl_eac_zero ws (fun x hx => Nat.le_zero.mp (hno x hx))
        omega
      obtain ⟨w, hwmem, hwpos⟩ := hex
      exact ⟨w, mem_set_of_ne ws i w (in_cksum ws) hwmem hz (by omega), hwpos⟩
  omega

/-- C6: checksum round-trip, with `in_cksum` modelled from the spec (§6)
since the checksum routine is not part of `src/`.  For every byte list
(each byte < 256) paired into 16-bit words with an odd trailing byte
zero-padded, and every word position holding 0 (the zeroed checksum
field): after storing the computed checksum at that position, the
16-bit one's-complement sum of the whole packet is 65535 — the
one's-complement representation of zero (negative zero) — equivalently,
recomputing the checksum over the stored packet yields 0. -/
theorem c6_checksum_roundtrip (bytes : List Nat) (hb : ∀ b ∈ bytes, b < 256)
    (i : Nat) (hz : (toWords bytes).get? i = some 0) :
    onesSum ((toWords bytes).set i (in_cksum (toWords bytes))) = 65535 ∧
    in_cksum ((toWords bytes).set i (in_cksum (toWords bytes))) = 0 := by
  have h := cksum_insert (toWords bytes) (toWords_le bytes hb) i hz
  refine ⟨h, ?_⟩
  rw [in_cksum, h]

theorem c6_checksum_roundtrip_witness :
    (∀ b ∈ [8, 0, 0, 0, 1, 2, 3], b < 256) ∧
    (toWords [8, 0, 0, 0, 1, 2, 3]).get? 1 = some 0 ∧
    onesSum ((toWords [8, 0, 0, 0, 1, 2, 3]).set 1
      (in_cksum (toWords [8, 0, 0, 0, 1, 2, 3]))) = 65535 ∧
    in_cksum ((toWords [8, 0, 0, 0, 1, 2, 3]).set 1
      (in_cksum (toWords [8, 0, 0, 0, 1, 2, 3]))) = 0 := by
  refine ⟨by decide, by decide, ?_, ?_⟩
  · exact (c6_checksum_roundtrip [8, 0, 0, 0, 1, 2, 3] (by decide) 1 (by decide)).1
  · exact (c6_checksum_roundtrip [8, 0, 0, 0, 1, 2, 3] (by decide) 1 (by decide)).2

end Inet4Impl
